import Mathlib

/-!
Verification of the zaku task-queue broker against its natural-language
specification.  The metadata index (Redis), the payload store (MongoDB)
and the HTTP handlers of `TaskServer` are shallowly embedded as pure
Lean functions; timestamps are integers, payload bytes are lists of
characters.  Each definition mirrors one function of the source
(`zaku/interfaces.py`, `zaku/server.py`,
`zaku/listen_redis_key_gc_mongo.py`).
-/

deriving instance DecidableEq for Except

namespace Zaku

abbrev Time := Int
abbrev Key := String
abbrev Bytes := List Char

/-- Decode payload/message bytes as a string (Python `bytes.decode`). -/
def bytesStr (b : Bytes) : String := String.mk b

/-- Job status stored in the metadata index (`Job.status`). -/
inductive Status where
  | created
  | in_progress
deriving DecidableEq, Repr

/-- One job metadata document: `created_ts`, `status`, `grab_ts`
(`grab_ts = none` models the JSON field being absent). -/
structure JobDoc where
  created_ts : Time
  status : Status
  grab_ts : Option Time
deriving DecidableEq, Repr

/-- The metadata index (Redis): the JSON documents keyed by string, and
the set of existing search indexes (`FT.CREATE`d index names). -/
structure MIStore where
  docs : List (Key × JobDoc)
  indexes : List String
deriving DecidableEq, Repr

/-- The payload store (MongoDB): collections of `_id -> payload` documents. -/
structure PSStore where
  colls : List (String × List (String × Bytes))
deriving DecidableEq, Repr

/-- `f"{prefix}:{queue}:{job_id}"` — the MI metadata key (`entry_key`). -/
def entryKey (gp queue jobId : String) : Key := gp ++ ":" ++ queue ++ ":" ++ jobId

/-- `f"{prefix}:{queue}"` — the MI search-index name (`index_name`). -/
def indexName (gp queue : String) : String := gp ++ ":" ++ queue

/-- `f"{prefix}:{queue}:"` — the key pattern covered by the queue's index
(`index_prefix` in `Job.create_queue`). -/
def queueKeyPat (gp queue : String) : String := gp ++ ":" ++ queue ++ ":"

/-- Character-level prefix test: does the key fall under the pattern?
(Models the Redis index/`SCAN` prefix match.) -/
def strHasPref (pat k : String) : Bool := pat.data.isPrefixOf k.data

/-- `f"{prefix}_{queue}"` — the PS collection holding job payloads
(`collection_name` in `Job.add` / `Job.take`). -/
def payloadCollection (gp queue : String) : String := gp ++ "_" ++ queue

/-- `f"{prefix}_{queue}_topics"` — the PS collection for topic messages. -/
def topicCollection (gp queue : String) : String := gp ++ "_" ++ queue ++ "_topics"

/-- `JSON.SET key . doc`: replace the document at `key`, creating it when
absent. -/
def miSet (s : MIStore) (k : Key) (d : JobDoc) : MIStore :=
  if s.docs.any (fun p => p.1 == k) then
    { s with docs := s.docs.map (fun p => if p.1 == k then (k, d) else p) }
  else
    { s with docs := s.docs ++ [(k, d)] }

/-- `RobustMongo.retrieve_payload`: look the payload up by collection and
`_id`; `none` when the document is missing. -/
def psRetrieve (ps : PSStore) (coll id : String) : Option Bytes :=
  match ps.colls.find? (fun c => c.1 == coll) with
  | none => none
  | some c =>
    match c.2.find? (fun d => d.1 == id) with
    | none => none
    | some d => some d.2

/-- `RobustMongo.store_payload`: insert the document, replacing it on a
duplicate `_id` (the `DuplicateKeyError` branch). -/
def psStorePayload (ps : PSStore) (coll id : String) (payload : Bytes) : PSStore :=
  if ps.colls.any (fun c => c.1 == coll) then
    { colls := ps.colls.map (fun c =>
        if c.1 == coll then
          (c.1,
            if c.2.any (fun d => d.1 == id) then
              c.2.map (fun d => if d.1 == id then (id, payload) else d)
            else c.2 ++ [(id, payload)])
        else c) }
  else
    { colls := ps.colls ++ [(coll, [(id, payload)])] }

/-- Errors raised by MI search commands; `noSuchIndex` models the Redis
`ResponseError` whose message contains `no such index`. -/
inductive MIError where
  | noSuchIndex
deriving DecidableEq, Repr

/-- The `FT.SEARCH index '@status:{created}' LIMIT 0 1` query inside the
Lua script of `Job.take`: one document under the queue's key pattern whose
status is `created` (order is implementation-defined; the model takes the
first). -/
def searchCreated (s : MIStore) (gp queue : String) : Option (Key × JobDoc) :=
  s.docs.find? (fun p =>
    strHasPref (queueKeyPat gp queue) p.1 && decide (p.2.status = Status.created))

/-- The Lua script executed by `Job.take`: atomically search for one
`created` document; if none, return nothing; else set its `status` to
`in_progress` and its `grab_ts` to the current time and return its key.
Raises `noSuchIndex` when the queue's index was never created. -/
def takeScript (s : MIStore) (gp queue : String) (now : Time) :
    Except MIError (MIStore × Option Key) :=
  if s.indexes.contains (indexName gp queue) then
    match searchCreated s gp queue with
    | none => .ok (s, none)
    | some (k, d) =>
        .ok (miSet s k { d with status := .in_progress, grab_ts := some now }, some k)
  else .error .noSuchIndex

/-- `job_key[len(index_name) + 1 :]` — extract the job id from the key the
script returned. -/
def jobIdOfKey (gp queue : String) (k : Key) : String :=
  String.mk (k.data.drop ((indexName gp queue).length + 1))

namespace Job

/-- `Job.take`: run the atomic Lua script, then — only after it returned —
fetch the payload from the payload store by the extracted job id.  `psUp`
models whether the MongoDB call succeeds; on failure the exception is
caught and the payload stays `None`. -/
def take (s : MIStore) (ps : PSStore) (psUp : Bool) (gp queue : String) (now : Time) :
    Except MIError (MIStore × Option String × Option Bytes) :=
  match takeScript s gp queue now with
  | .error e => .error e
  | .ok (s', none) => .ok (s', none, none)
  | .ok (s', some k) =>
      let jobId := jobIdOfKey gp queue k
      let payload :=
        if psUp then psRetrieve ps (payloadCollection gp queue) jobId else none
      .ok (s', some jobId, payload)

/-- `Job.count_files`: total of documents with `@status:{created}` under
the queue's index. -/
def count_files (s : MIStore) (gp queue : String) : Except MIError Nat :=
  if s.indexes.contains (indexName gp queue) then
    .ok ((s.docs.filter (fun p =>
      strHasPref (queueKeyPat gp queue) p.1 && decide (p.2.status = Status.created))).length)
  else .error .noSuchIndex

/-- Truthiness of an optional payload (`if payload:` in Python). -/
def pTruthy : Option Bytes → Bool
  | none => false
  | some b => !b.isEmpty

/-- `Job.add`: mint the job id when absent (`freshId` stands for
`str(uuid4())`), write the MI document `{created_ts: now, status:
"created"}` (no `grab_ts` field), store the payload in PS when non-empty,
and return `True`. -/
def add (s : MIStore) (ps : PSStore) (gp queue : String)
    (jobId : Option String) (freshId : String) (payload : Option Bytes) (now : Time) :
    MIStore × PSStore × Bool :=
  let jid := jobId.getD freshId
  let s' := miSet s (entryKey gp queue jid) { created_ts := now, status := .created, grab_ts := none }
  let ps' :=
    if pTruthy payload then
      psStorePayload ps (payloadCollection gp queue) jid (payload.getD [])
    else ps
  (s', ps', true)

/-- `Job.reset`: `JSON.SET $.status "created"` and `JSON.DEL $.grab_ts` on
the entry key (a no-op on an absent key: pipeline errors are swallowed). -/
def resetMI (s : MIStore) (gp queue jobId : String) : MIStore :=
  { s with docs := s.docs.map (fun p =>
      if p.1 == entryKey gp queue jobId then
        (p.1, { p.2 with status := .created, grab_ts := none })
      else p) }

/-- `Job.remove` with `job_id == "*"`: unlink every MI key matching
`{prefix}:{queue}:*`; the PS payloads are not touched (the code only logs
a warning and defers cleanup). -/
def removeStarMI (s : MIStore) (gp queue : String) : MIStore :=
  { s with docs := s.docs.filter (fun p => !strHasPref (queueKeyPat gp queue) p.1) }

/-- `Job.remove(queue, "*")` acting on both stores: MI keys under the
queue pattern are unlinked; the payload store is left unchanged. -/
def removeStar (s : MIStore) (ps : PSStore) (gp queue : String) : MIStore × PSStore :=
  (removeStarMI s gp queue, ps)

/-- The search filter of `Job.unstale_tasks`: with a truthy `ttl`,
`@status:{in_progress} @grab_ts:[0 (now - ttl)]`; with `ttl` absent or
`0` (both falsy in Python), `@status:{in_progress}` alone. -/
def staleCond (ttl : Option Time) (now : Time) (d : JobDoc) : Bool :=
  match ttl with
  | none => decide (d.status = Status.in_progress)
  | some t =>
    if t = 0 then decide (d.status = Status.in_progress)
    else
      decide (d.status = Status.in_progress) &&
        (match d.grab_ts with
         | some g => decide (0 ≤ g) && decide (g ≤ now - t)
         | none => false)

/-- The `result.docs` of the `FT.SEARCH` in `Job.unstale_tasks`: the
`Query` is built without `.paging`, so the Redis default `LIMIT 0 10`
applies and the search returns at most the first ten matching
documents. -/
def unstaleMatches (s : MIStore) (gp queue : String) (ttl : Option Time) (now : Time) :
    List (Key × JobDoc) :=
  (s.docs.filter (fun p =>
    strHasPref (queueKeyPat gp queue) p.1 && staleCond ttl now p.2)).take 10

/-- The bulk reset of `Job.unstale_tasks`: the pipeline sets
`status := "created"` and removes `grab_ts` at the key of each document
the (page-limited) search returned. -/
def unstaleMI (s : MIStore) (gp queue : String) (ttl : Option Time) (now : Time) : MIStore :=
  let ks := (unstaleMatches s gp queue ttl now).map (fun p => p.1)
  { s with docs := s.docs.map (fun p =>
      if ks.contains p.1 then
        (p.1, { p.2 with status := .created, grab_ts := none })
      else p) }

/-- `Job.unstale_tasks`: the `FT.SEARCH` raises when the index is
missing; otherwise the documents of the returned page are reset. -/
def unstale_tasks (s : MIStore) (gp queue : String) (ttl : Option Time) (now : Time) :
    Except MIError MIStore :=
  if s.indexes.contains (indexName gp queue) then .ok (unstaleMI s gp queue ttl now)
  else .error .noSuchIndex

end Job

/-- The msgpack bodies the handlers (or the spec) produce. -/
inductive Body where
  | takeMsg (job_id : String) (payload : Bytes)
  | countMsg (counts : Nat)
  | jobIdMsg (job_id : String)
deriving DecidableEq, Repr

/-- An HTTP response of `TaskServer`: a text body, a packed msgpack body,
a raw byte body, or an empty body, each with a status code. -/
inductive Response where
  | text (s : String) (status : Nat)
  | packed (b : Body) (status : Nat)
  | raw (b : Bytes) (status : Nat)
  | empty (status : Nat)
deriving DecidableEq, Repr

/-- `TaskServer.take_handler`: catch `no such index` as an empty 200;
answer with msgpack `{job_id, payload}` only when the payload is truthy,
else an empty 200. -/
def take_handler (s : MIStore) (ps : PSStore) (psUp : Bool) (gp queue : String) (now : Time) :
    Response × MIStore :=
  match Job.take s ps psUp gp queue now with
  | .error .noSuchIndex => (.empty 200, s)
  | .ok (s', some jid, some p) =>
      if !p.isEmpty then (.packed (.takeMsg jid p) 200, s') else (.empty 200, s')
  | .ok (s', _, _) => (.empty 200, s')

/-- `TaskServer.count_files_handler`: catch `no such index` as an empty
200, else msgpack `{counts}`. -/
def count_files_handler (s : MIStore) (gp queue : String) : Response :=
  match Job.count_files s gp queue with
  | .error .noSuchIndex => .empty 200
  | .ok n => .packed (.countMsg n) 200

/-- `TaskServer.add_job`: run `Job.add` and answer `200` with the text
body `"OK"`. -/
def add_job (s : MIStore) (ps : PSStore) (gp queue : String)
    (jobId : Option String) (freshId : String) (payload : Option Bytes) (now : Time) :
    Response × MIStore × PSStore :=
  let (s', ps', _ok) := Job.add s ps gp queue jobId freshId payload now
  (.text "OK" 200, s', ps')

/-- One poll result of `PubSub.get_message` inside `Job.subscribe`:
message type and data bytes (`none` models a poll timeout slice). -/
structure Msg where
  mtype : String
  data : Bytes
deriving DecidableEq, Repr

/-- The UUID-shape test of `Job.subscribe`:
`len(message_id) == 36 and '-' in message_id`. -/
def uuidShaped (msgStr : String) : Bool :=
  msgStr.data.length == 36 && msgStr.data.contains '-'

/-- `Job.subscribe`: poll until the deadline (the list of poll slices);
on the first `"message"`-typed message, a UUID-shaped data string is a
reference fetched from the topic collection (returned when truthy, else
keep polling; on a store failure fall back to the raw data), any other
data is returned as-is; `none` when the deadline elapses. -/
def subscribe (ps : PSStore) (psUp : Bool) (gp queue : String) :
    List (Option Msg) → Option Bytes
  | [] => none
  | none :: rest => subscribe ps psUp gp queue rest
  | some m :: rest =>
    if m.mtype = "message" then
      if uuidShaped (bytesStr m.data) then
        if psUp then
          match psRetrieve ps (topicCollection gp queue) (bytesStr m.data) with
          | some p => if !p.isEmpty then some p else subscribe ps psUp gp queue rest
          | none => subscribe ps psUp gp queue rest
        else some m.data
      else some m.data
    else subscribe ps psUp gp queue rest

/-- `TaskServer.subscribe_one_handler`: raw 200 body when the received
payload is truthy, empty 200 otherwise. -/
def subscribe_one_handler (ps : PSStore) (psUp : Bool) (gp queue : String)
    (msgs : List (Option Msg)) : Response :=
  match subscribe ps psUp gp queue msgs with
  | some p => if !p.isEmpty then .raw p 200 else .empty 200
  | none => .empty 200

/-- `item.rsplit(":", 1)` in the expiration watcher: split an expired MI
key into the part before the last colon (used as the PS collection name)
and the trailing job id. -/
def rsplitColon (k : String) : String × String :=
  let r := k.data.reverse
  let idRev := r.takeWhile (fun c => !(c == ':'))
  (String.mk ((r.drop (idRev.length + 1)).reverse), String.mk idRev.reverse)

/-- `defaultdict(list)` insertion used by the watcher's flush. -/
def insertGroup (acc : List (String × List String)) (c id : String) :
    List (String × List String) :=
  match acc with
  | [] => [(c, [id])]
  | (c', ids) :: rest =>
    if c' == c then (c', ids ++ [id]) :: rest else (c', ids) :: insertGroup rest c id

/-- The grouping step of `listen_with_batch_processing`: keys containing a
colon are grouped by `rsplit(":", 1)`; one `bulk_delete_payloads` call is
then issued per group, against the group name as the collection. -/
def gcFlush (buf : List String) : List (String × List String) :=
  buf.foldl (fun acc k =>
    if k.data.contains ':' then
      insertGroup acc (rsplitColon k).1 (rsplitColon k).2
    else acc) []

/-- The watcher's flush trigger: buffer reached `batch_size` (1000) keys,
or at least one second elapsed since the last flush. -/
def flushDue (bufLen : Nat) (lastFlush now : Time) (batchSize : Nat) : Bool :=
  decide (batchSize ≤ bufLen) || decide (1 ≤ now - lastFlush)

/-! ### Helper lemmas about the metadata index -/

theorem mem_miSet {s : MIStore} {k : Key} {d : JobDoc} {p : Key × JobDoc}
    (hp : p ∈ (miSet s k d).docs) : p ∈ s.docs ∨ p = (k, d) := by
  unfold miSet at hp
  by_cases hAny : s.docs.any (fun q => q.1 == k)
  · rw [if_pos hAny] at hp
    rcases List.mem_map.mp hp with ⟨q, hq, rfl⟩
    by_cases hqk : q.1 == k
    · simp [hqk]
    · left; simpa [hqk] using hq
  · rw [if_neg hAny] at hp
    rcases List.mem_append.mp hp with h1 | h1
    · exact Or.inl h1
    · right; simpa using h1

theorem miSet_at_key {s : MIStore} {k : Key} {d : JobDoc} {p : Key × JobDoc}
    (hp : p ∈ (miSet s k d).docs) (hk : p.1 = k) : p.2 = d := by
  unfold miSet at hp
  by_cases hAny : s.docs.any (fun q => q.1 == k)
  · rw [if_pos hAny] at hp
    rcases List.mem_map.mp hp with ⟨q, hq, rfl⟩
    by_cases hqk : q.1 == k
    · simp [hqk]
    · simp only [hqk] at hk ⊢
      simp at hk
      exact absurd (by simp [hk]) hqk
  · rw [if_neg hAny] at hp
    rcases List.mem_append.mp hp with h1 | h1
    · exfalso
      simp only [List.any_eq_true, not_exists] at hAny
      push_neg at hAny
      exact absurd (by simp [hk]) (hAny p h1)
    · simp only [List.mem_singleton] at h1
      rw [h1]

theorem searchCreated_mem {s : MIStore} {gp queue : String} {k : Key} {d : JobDoc}
    (h : searchCreated s gp queue = some (k, d)) :
    (k, d) ∈ s.docs ∧ strHasPref (queueKeyPat gp queue) k = true ∧ d.status = .created := by
  have hm := List.mem_of_find?_eq_some h
  have hp := List.find?_some h
  simp only [Bool.and_eq_true, decide_eq_true_eq] at hp
  exact ⟨hm, hp.1, hp.2⟩

theorem takeScript_ok_some {s s' : MIStore} {gp queue : String} {now : Time} {k : Key}
    (h : takeScript s gp queue now = .ok (s', some k)) :
    ∃ d, searchCreated s gp queue = some (k, d) ∧ d.status = .created ∧
      (k, d) ∈ s.docs ∧ strHasPref (queueKeyPat gp queue) k = true ∧
      s' = miSet s k { d with status := .in_progress, grab_ts := some now } := by
  unfold takeScript at h
  by_cases hidx : s.indexes.contains (indexName gp queue)
  · rw [if_pos hidx] at h
    cases hsc : searchCreated s gp queue with
    | none => rw [hsc] at h; simp at h
    | some p =>
      obtain ⟨k0, d⟩ := p
      rw [hsc] at h
      simp only [Except.ok.injEq, Prod.mk.injEq, Option.some.injEq] at h
      obtain ⟨hs, hk⟩ := h
      subst hk
      obtain ⟨hm, hpre, hst⟩ := searchCreated_mem hsc
      exact ⟨d, rfl, hst, hm, hpre, hs.symm⟩
  · rw [if_neg hidx] at h
    exact absurd h (by simp)

theorem takeScript_ok_none {s s' : MIStore} {gp queue : String} {now : Time}
    (h : takeScript s gp queue now = .ok (s', none)) : s' = s := by
  unfold takeScript at h
  by_cases hidx : s.indexes.contains (indexName gp queue)
  · rw [if_pos hidx] at h
    cases hsc : searchCreated s gp queue with
    | none => rw [hsc] at h; simpa using h.symm
    | some p => rw [hsc] at h; simp at h
  · rw [if_neg hidx] at h
    exact absurd h (by simp)

theorem takeScript_claimed_in_progress {s s' : MIStore} {gp queue : String}
    {now : Time} {k : Key} (h : takeScript s gp queue now = .ok (s', some k)) :
    ∀ p ∈ s'.docs, p.1 = k → p.2.status = .in_progress := by
  obtain ⟨d, _, _, _, _, rfl⟩ := takeScript_ok_some h
  intro p hp hpk
  rw [miSet_at_key hp hpk]

/-! ### Claim theorems -/

/-- C1: every `take(queue)` call either finds no `created` document in the
queue index and returns the empty pair, or atomically selects one such
document, flips its status to `in_progress` with `grab_ts := now`, and
returns its key; the payload is fetched from the payload store by the
extracted job id only after the script returned. -/
theorem take_script_claims_or_empty (s : MIStore) (ps : PSStore) (psUp : Bool)
    (gp queue : String) (now : Time)
    (hidx : s.indexes.contains (indexName gp queue) = true) :
    (searchCreated s gp queue = none ∧
      Job.take s ps psUp gp queue now = .ok (s, none, none)) ∨
    (∃ k d, (k, d) ∈ s.docs ∧ d.status = .created ∧
      strHasPref (queueKeyPat gp queue) k = true ∧
      Job.take s ps psUp gp queue now =
        .ok (miSet s k { d with status := .in_progress, grab_ts := some now },
             some (jobIdOfKey gp queue k),
             if psUp then
               psRetrieve ps (payloadCollection gp queue) (jobIdOfKey gp queue k)
             else none)) := by
  have hmem : indexName gp queue ∈ s.indexes := by simpa using hidx
  cases hsc : searchCreated s gp queue with
  | none =>
    left
    refine ⟨rfl, ?_⟩
    simp [Job.take, takeScript, hsc, hmem]
  | some p =>
    obtain ⟨k, d⟩ := p
    right
    obtain ⟨hm, hpre, hst⟩ := searchCreated_mem hsc
    exact ⟨k, d, hm, hst, hpre, by simp [Job.take, takeScript, hsc, hmem]⟩

/-- Witness for C1 on a one-job queue. -/
theorem take_script_claims_or_empty_witness :
    ((⟨[("Z:q:j1", ⟨5, .created, none⟩)], ["Z:q"]⟩ : MIStore).indexes.contains
        (indexName "Z" "q") = true) ∧
    ((searchCreated ⟨[("Z:q:j1", ⟨5, .created, none⟩)], ["Z:q"]⟩ "Z" "q" = none ∧
      Job.take ⟨[("Z:q:j1", ⟨5, .created, none⟩)], ["Z:q"]⟩ ⟨[]⟩ true "Z" "q" 9 =
        .ok (⟨[("Z:q:j1", ⟨5, .created, none⟩)], ["Z:q"]⟩, none, none)) ∨
    (∃ k d, (k, d) ∈ (⟨[("Z:q:j1", ⟨5, .created, none⟩)], ["Z:q"]⟩ : MIStore).docs ∧
      d.status = .created ∧ strHasPref (queueKeyPat "Z" "q") k = true ∧
      Job.take ⟨[("Z:q:j1", ⟨5, .created, none⟩)], ["Z:q"]⟩ ⟨[]⟩ true "Z" "q" 9 =
        .ok (miSet ⟨[("Z:q:j1", ⟨5, .created, none⟩)], ["Z:q"]⟩ k
               { d with status := .in_progress, grab_ts := some 9 },
             some (jobIdOfKey "Z" "q" k),
             if true then
               psRetrieve ⟨[]⟩ (payloadCollection "Z" "q") (jobIdOfKey "Z" "q" k)
             else none))) :=
  ⟨by decide,
   take_script_claims_or_empty ⟨[("Z:q:j1", ⟨5, .created, none⟩)], ["Z:q"]⟩ ⟨[]⟩ true
     "Z" "q" 9 (by decide)⟩

/-- C2: two takes on the same queue with no intervening reset or unstale
never return the same key — the second atomic script run starts from the
state the first one produced and can only select a `created` document,
while the first run left its key `in_progress`. -/
theorem take_no_double_claim {s s1 s2 : MIStore} {gp queue : String}
    {n1 n2 : Time} {k1 k2 : Key}
    (h1 : takeScript s gp queue n1 = .ok (s1, some k1))
    (h2 : takeScript s1 gp queue n2 = .ok (s2, some k2)) : k1 ≠ k2 := by
  obtain ⟨d2, _, hst2, hmem2, _, _⟩ := takeScript_ok_some h2
  intro he
  have hip := takeScript_claimed_in_progress h1 (k2, d2) hmem2 he.symm
  rw [hst2] at hip
  exact Status.noConfusion hip

/-- Witness for C2 on a two-job queue: the two sequential script runs
return distinct keys. -/
theorem take_no_double_claim_witness :
    (takeScript ⟨[("Z:q:a", ⟨1, .created, none⟩), ("Z:q:b", ⟨2, .created, none⟩)], ["Z:q"]⟩
        "Z" "q" 10 =
      .ok (⟨[("Z:q:a", ⟨1, .in_progress, some 10⟩), ("Z:q:b", ⟨2, .created, none⟩)], ["Z:q"]⟩,
           some "Z:q:a")) ∧
    (takeScript ⟨[("Z:q:a", ⟨1, .in_progress, some 10⟩), ("Z:q:b", ⟨2, .created, none⟩)], ["Z:q"]⟩
        "Z" "q" 11 =
      .ok (⟨[("Z:q:a", ⟨1, .in_progress, some 10⟩), ("Z:q:b", ⟨2, .in_progress, some 11⟩)], ["Z:q"]⟩,
           some "Z:q:b")) ∧
    "Z:q:a" ≠ "Z:q:b" := by
  have h1 : takeScript ⟨[("Z:q:a", ⟨1, .created, none⟩), ("Z:q:b", ⟨2, .created, none⟩)], ["Z:q"]⟩
      "Z" "q" 10 =
      .ok (⟨[("Z:q:a", ⟨1, .in_progress, some 10⟩), ("Z:q:b", ⟨2, .created, none⟩)], ["Z:q"]⟩,
           some "Z:q:a") := by decide
  have h2 : takeScript ⟨[("Z:q:a", ⟨1, .in_progress, some 10⟩), ("Z:q:b", ⟨2, .created, none⟩)], ["Z:q"]⟩
      "Z" "q" 11 =
      .ok (⟨[("Z:q:a", ⟨1, .in_progress, some 10⟩), ("Z:q:b", ⟨2, .in_progress, some 11⟩)], ["Z:q"]⟩,
           some "Z:q:b") := by decide
  exact ⟨h1, h2, take_no_double_claim h1 h2⟩

/-- C6: `take` and `count` on a queue whose index was never created
answer with an empty 200 response instead of an error. -/
theorem missing_index_empty_200 {s : MIStore} {ps : PSStore} {psUp : Bool}
    {gp queue : String} {now : Time}
    (hidx : s.indexes.contains (indexName gp queue) = false) :
    take_handler s ps psUp gp queue now = (.empty 200, s) ∧
    count_files_handler s gp queue = .empty 200 := by
  have hmem : ¬(indexName gp queue ∈ s.indexes) := by
    intro h
    rw [← List.elem_iff] at h
    rw [List.contains] at hidx
    rw [h] at hidx
    cases hidx
  constructor
  · simp [take_handler, Job.take, takeScript, hmem]
  · simp [count_files_handler, Job.count_files, hmem]

/-- Witness for C6: a store with no index at all. -/
theorem missing_index_empty_200_witness :
    ((⟨[], []⟩ : MIStore).indexes.contains (indexName "Z" "q") = false) ∧
    take_handler ⟨[], []⟩ ⟨[]⟩ true "Z" "q" 3 = (.empty 200, ⟨[], []⟩) ∧
    count_files_handler ⟨[], []⟩ "Z" "q" = .empty 200 :=
  ⟨by decide, missing_index_empty_200 (by decide)⟩

/-! ### The job-metadata invariants (C4) -/

/-- The two documented metadata invariants: an `in_progress` document has
a `grab_ts` no earlier than its `created_ts`, and a `created` document
has no `grab_ts`. -/
abbrev docInv (d : JobDoc) : Prop :=
  (d.status = .in_progress → ∃ g, d.grab_ts = some g ∧ d.created_ts ≤ g) ∧
  (d.status = .created → d.grab_ts = none)

/-- All timestamps of a document are at most `t` (the clock so far). -/
abbrev docLe (d : JobDoc) (t : Time) : Prop :=
  d.created_ts ≤ t ∧ ∀ g, d.grab_ts = some g → g ≤ t

/-- Every document of the store satisfies the invariants and is dated at
most `t`. -/
abbrev storeInv (s : MIStore) (t : Time) : Prop :=
  ∀ p ∈ s.docs, docInv p.2 ∧ docLe p.2 t

/-- One queue operation of the job lifecycle (the payload arguments do
not affect the metadata index). -/
inductive QOp where
  | addOp (queue jobId : String)
  | takeOp (queue : String)
  | resetOp (queue jobId : String)
  | unstaleOp (queue : String) (ttl : Option Time)
deriving DecidableEq, Repr

/-- The effect of one operation on the metadata index at time `now`,
taken from the source operations (`Job.add`, the `take` Lua script,
`Job.reset`, `Job.unstale_tasks`); a failed operation leaves the index
unchanged. -/
def stepMI (gp : String) (s : MIStore) : QOp → Time → MIStore
  | .addOp q id, now => (Job.add s ⟨[]⟩ gp q (some id) id none now).1
  | .takeOp q, now =>
    match takeScript s gp q now with
    | .ok (s', _) => s'
    | .error _ => s
  | .resetOp q id, _ => Job.resetMI s gp q id
  | .unstaleOp q ttl, now =>
    match Job.unstale_tasks s gp q ttl now with
    | .ok s' => s'
    | .error _ => s

/-- Run a timed sequence of queue operations. -/
def runOps (gp : String) (s : MIStore) : List (QOp × Time) → MIStore
  | [] => s
  | (op, t) :: rest => runOps gp (stepMI gp s op t) rest

/-- The clock is non-decreasing along the operation sequence. -/
abbrev timesMono : Time → List (QOp × Time) → Prop
  | _, [] => True
  | t, (_, t') :: rest => t ≤ t' ∧ timesMono t' rest

theorem storeInv_mono {s : MIStore} {t t' : Time} (h : storeInv s t) (ht : t ≤ t') :
    storeInv s t' := by
  intro p hp
  obtain ⟨hi, hc, hg⟩ := h p hp
  exact ⟨hi, le_trans hc ht, fun g hg' => le_trans (hg g hg') ht⟩

theorem stepMI_preserves (gp : String) {s : MIStore} {t now : Time} (op : QOp)
    (h : storeInv s t) (ht : t ≤ now) : storeInv (stepMI gp s op now) now := by
  have h' : storeInv s now := storeInv_mono h ht
  cases op with
  | addOp q id =>
    intro p hp
    rcases mem_miSet hp with hmem | rfl
    · exact h' p hmem
    · refine ⟨⟨fun hst => ?_, fun _ => rfl⟩, le_refl now, fun g hg => ?_⟩
      · cases hst
      · cases hg
  | takeOp q =>
    intro p hp
    cases hts : takeScript s gp q now with
    | error e => rw [stepMI, hts] at hp; exact h' p hp
    | ok r =>
      obtain ⟨s', ko⟩ := r
      rw [stepMI, hts] at hp
      cases ko with
      | none => rw [takeScript_ok_none hts] at hp; exact h' p hp
      | some k =>
        obtain ⟨d, _, _, hmem, _, rfl⟩ := takeScript_ok_some hts
        rcases mem_miSet hp with hmem' | rfl
        · exact h' p hmem'
        · obtain ⟨_, hcle, _⟩ := h' (k, d) hmem
          refine ⟨⟨fun _ => ⟨now, rfl, hcle⟩, fun hst => ?_⟩, hcle, fun g hg => ?_⟩
          · cases hst
          · cases hg
            exact le_refl _
  | resetOp q id =>
    intro p hp
    rcases List.mem_map.mp hp with ⟨q', hq', rfl⟩
    obtain ⟨hi, hc, hg⟩ := h' q' hq'
    by_cases hk : q'.1 == entryKey gp q id
    · simp only [hk, if_true]
      refine ⟨⟨fun hst => ?_, fun _ => rfl⟩, hc, fun g hgg => ?_⟩
      · cases hst
      · cases hgg
    · simp only [hk, if_false]
      exact ⟨hi, hc, hg⟩
  | unstaleOp q ttl =>
    intro p hp
    rw [stepMI, Job.unstale_tasks] at hp
    by_cases hidx : s.indexes.contains (indexName gp q)
    · rw [if_pos hidx] at hp
      simp only [Job.unstaleMI] at hp
      rcases List.mem_map.mp hp with ⟨q', hq', rfl⟩
      obtain ⟨hi, hc, hg⟩ := h' q' hq'
      by_cases hcond :
        ((Job.unstaleMatches s gp q ttl now).map (fun p => p.1)).contains q'.1
      · simp only [hcond, if_true]
        refine ⟨⟨fun hst => ?_, fun _ => rfl⟩, hc, fun g hgg => ?_⟩
        · cases hst
        · cases hgg
      · simp only [hcond, if_false]
        exact ⟨hi, hc, hg⟩
    · rw [if_neg hidx] at hp
      exact h' p hp

/-- C4: along every timed sequence of `add`, `take`, `reset` and
`unstale` operations with a non-decreasing clock, every metadata document
satisfies both invariants: `in_progress` implies `grab_ts` is set with
`grab_ts ≥ created_ts`, and `created` implies `grab_ts` is absent. -/
theorem lifecycle_invariants (gp : String) {s : MIStore} {t : Time}
    {ops : List (QOp × Time)} (h : storeInv s t) (hm : timesMono t ops) :
    ∀ p ∈ (runOps gp s ops).docs, docInv p.2 := by
  induction ops generalizing s t with
  | nil => exact fun p hp => (h p hp).1
  | cons pr rest ih =>
    obtain ⟨op, t'⟩ := pr
    exact ih (stepMI_preserves gp op h hm.1) hm.2

/-- Witness for C4: an `add` followed by a `take` and an `unstale`
starting from the empty store. -/
theorem lifecycle_invariants_witness :
    storeInv ⟨[], ["Z:q"]⟩ 0 ∧
    timesMono 0 [(.addOp "q" "j1", 1), (.takeOp "q", 2), (.unstaleOp "q" (some 0), 3)] ∧
    ∀ p ∈ (runOps "Z" ⟨[], ["Z:q"]⟩
        [(.addOp "q" "j1", 1), (.takeOp "q", 2), (.unstaleOp "q" (some 0), 3)]).docs,
      docInv p.2 := by
  have h0 : storeInv ⟨[], ["Z:q"]⟩ 0 := by intro p hp; cases hp
  have hm : timesMono 0 [(QOp.addOp "q" "j1", 1), (QOp.takeOp "q", 2),
      (QOp.unstaleOp "q" (some 0), 3)] :=
    ⟨by decide, by decide, by decide, trivial⟩
  exact ⟨h0, hm, lifecycle_invariants "Z" h0 hm⟩

theorem unstaleMI_resets_matches (s : MIStore) (gp queue : String)
    (ttl : Option Time) (now : Time) :
    ∀ p ∈ Job.unstaleMatches s gp queue ttl now,
      (p.1, { p.2 with status := .created, grab_ts := none }) ∈
        (Job.unstaleMI s gp queue ttl now).docs := by
  intro p hp
  have hpd : p ∈ s.docs := (List.mem_filter.mp (List.mem_of_mem_take hp)).1
  have hmemks : p.1 ∈ (Job.unstaleMatches s gp queue ttl now).map (fun p => p.1) :=
    List.mem_map_of_mem _ hp
  have hks : ((Job.unstaleMatches s gp queue ttl now).map (fun p => p.1)).contains p.1 = true :=
    List.elem_iff.mpr hmemks
  refine List.mem_map.mpr ⟨p, hpd, ?_⟩
  rw [if_pos hks]

/-- C5 counterexample: a queue with eleven `in_progress` jobs.  The
`Query` of `Job.unstale_tasks` carries no `.paging`, so the search runs
with the Redis default `LIMIT 0 10` and returns ten documents; after
`unstale(ttl=0)` (and likewise with `ttl` absent) the eleventh job is
still `in_progress` — not every `in_progress` job is re-queued. -/
theorem unstale_page_limit_counterexample :
    (Job.unstale_tasks
      ⟨["a","b","c","d","e","f","g","h","i","j","k"].map
          (fun n => ("Z:q:" ++ n, (⟨0, .in_progress, some 1⟩ : JobDoc))), ["Z:q"]⟩
      "Z" "q" (some 0) 9 =
      .ok (Job.unstaleMI
        ⟨["a","b","c","d","e","f","g","h","i","j","k"].map
            (fun n => ("Z:q:" ++ n, (⟨0, .in_progress, some 1⟩ : JobDoc))), ["Z:q"]⟩
        "Z" "q" (some 0) 9)) ∧
    (("Z:q:k", (⟨0, .in_progress, some 1⟩ : JobDoc)) ∈
      (Job.unstaleMI
        ⟨["a","b","c","d","e","f","g","h","i","j","k"].map
            (fun n => ("Z:q:" ++ n, (⟨0, .in_progress, some 1⟩ : JobDoc))), ["Z:q"]⟩
        "Z" "q" (some 0) 9).docs) ∧
    (("Z:q:k", (⟨0, .in_progress, some 1⟩ : JobDoc)) ∈
      (Job.unstaleMI
        ⟨["a","b","c","d","e","f","g","h","i","j","k"].map
            (fun n => ("Z:q:" ++ n, (⟨0, .in_progress, some 1⟩ : JobDoc))), ["Z:q"]⟩
        "Z" "q" none 9).docs) ∧
    ¬(("Z:q:k", (⟨0, .created, none⟩ : JobDoc)) ∈
      (Job.unstaleMI
        ⟨["a","b","c","d","e","f","g","h","i","j","k"].map
            (fun n => ("Z:q:" ++ n, (⟨0, .in_progress, some 1⟩ : JobDoc))), ["Z:q"]⟩
        "Z" "q" (some 0) 9).docs) := by
  refine ⟨by decide, by decide, by decide, by decide⟩

/-- C5 (amended): one `unstale_tasks` call resets the jobs of the one
search page the unpaged `Query` yields (the Redis default `LIMIT 0 10`),
so at most ten jobs per call: every document on that page — under a
truthy `ttl`, an `in_progress` document with `0 ≤ grab_ts < now - ttl`
matches the filter; with `ttl` absent or `0` (falsy) every `in_progress`
document matches — is reset to `created` with `grab_ts` removed, and
when at most ten documents match at all, every matching document of the
queue is reset. -/
theorem unstale_resets_stale_page (s : MIStore) (gp queue : String) (now : Time)
    (hidx : s.indexes.contains (indexName gp queue) = true) :
    (∀ ttl, Job.unstale_tasks s gp queue ttl now = .ok (Job.unstaleMI s gp queue ttl now)) ∧
    (∀ ttl, (Job.unstaleMatches s gp queue ttl now).length ≤ 10) ∧
    (∀ ttl, ∀ p ∈ Job.unstaleMatches s gp queue ttl now,
      (p.1, { p.2 with status := .created, grab_ts := none }) ∈
        (Job.unstaleMI s gp queue ttl now).docs) ∧
    (∀ t p, t ≠ 0 → p ∈ s.docs → strHasPref (queueKeyPat gp queue) p.1 = true →
      p.2.status = .in_progress → ∀ g, p.2.grab_ts = some g → 0 ≤ g → g < now - t →
      (strHasPref (queueKeyPat gp queue) p.1 && Job.staleCond (some t) now p.2) = true) ∧
    (∀ d, Job.staleCond (some 0) now d = Job.staleCond none now d) ∧
    (∀ ttl, (s.docs.filter (fun p =>
        strHasPref (queueKeyPat gp queue) p.1 && Job.staleCond ttl now p.2)).length ≤ 10 →
      ∀ p ∈ s.docs,
        (strHasPref (queueKeyPat gp queue) p.1 && Job.staleCond ttl now p.2) = true →
        (p.1, { p.2 with status := .created, grab_ts := none }) ∈
          (Job.unstaleMI s gp queue ttl now).docs) := by
  refine ⟨?_, ?_, ?_, ?_, ?_, ?_⟩
  · intro ttl
    rw [Job.unstale_tasks, if_pos hidx]
  · intro ttl
    rw [Job.unstaleMatches]
    rw [List.length_take]
    exact Nat.min_le_left 10 _
  · intro ttl
    exact unstaleMI_resets_matches s gp queue ttl now
  · intro t p ht0 hp hpre hst g hg hge0 hlt
    have hle : g ≤ now - t := le_of_lt hlt
    simp [Job.staleCond, hpre, hst, hg, ht0, hge0, hle]
  · intro d
    simp [Job.staleCond]
  · intro ttl hlen p hp hcond
    have hpm : p ∈ Job.unstaleMatches s gp queue ttl now := by
      rw [Job.unstaleMatches, List.take_of_length_le hlen]
      exact List.mem_filter.mpr ⟨hp, hcond⟩
    exact unstaleMI_resets_matches s gp queue ttl now p hpm

/-- Witness for the amended C5 on a queue holding one stale
`in_progress` job. -/
theorem unstale_resets_stale_page_witness :
    ((⟨[("Z:q:j1", ⟨0, .in_progress, some 2⟩)], ["Z:q"]⟩ : MIStore).indexes.contains
        (indexName "Z" "q") = true) ∧
    (∀ ttl, Job.unstale_tasks ⟨[("Z:q:j1", ⟨0, .in_progress, some 2⟩)], ["Z:q"]⟩ "Z" "q" ttl 10 =
      .ok (Job.unstaleMI ⟨[("Z:q:j1", ⟨0, .in_progress, some 2⟩)], ["Z:q"]⟩ "Z" "q" ttl 10)) ∧
    (∀ ttl, (Job.unstaleMatches ⟨[("Z:q:j1", ⟨0, .in_progress, some 2⟩)], ["Z:q"]⟩
        "Z" "q" ttl 10).length ≤ 10) ∧
    (∀ ttl, ∀ p ∈ Job.unstaleMatches ⟨[("Z:q:j1", ⟨0, .in_progress, some 2⟩)], ["Z:q"]⟩
        "Z" "q" ttl 10,
      (p.1, { p.2 with status := .created, grab_ts := none }) ∈
        (Job.unstaleMI ⟨[("Z:q:j1", ⟨0, .in_progress, some 2⟩)], ["Z:q"]⟩ "Z" "q" ttl 10).docs) ∧
    (∀ t p, t ≠ 0 →
      p ∈ (⟨[("Z:q:j1", ⟨0, .in_progress, some 2⟩)], ["Z:q"]⟩ : MIStore).docs →
      strHasPref (queueKeyPat "Z" "q") p.1 = true →
      p.2.status = .in_progress → ∀ g, p.2.grab_ts = some g → 0 ≤ g → g < 10 - t →
      (strHasPref (queueKeyPat "Z" "q") p.1 && Job.staleCond (some t) 10 p.2) = true) ∧
    (∀ d, Job.staleCond (some 0) 10 d = Job.staleCond none 10 d) ∧
    (∀ ttl, ((⟨[("Z:q:j1", ⟨0, .in_progress, some 2⟩)], ["Z:q"]⟩ : MIStore).docs.filter
        (fun p => strHasPref (queueKeyPat "Z" "q") p.1 && Job.staleCond ttl 10 p.2)).length ≤ 10 →
      ∀ p ∈ (⟨[("Z:q:j1", ⟨0, .in_progress, some 2⟩)], ["Z:q"]⟩ : MIStore).docs,
        (strHasPref (queueKeyPat "Z" "q") p.1 && Job.staleCond ttl 10 p.2) = true →
        (p.1, { p.2 with status := .created, grab_ts := none }) ∈
          (Job.unstaleMI ⟨[("Z:q:j1", ⟨0, .in_progress, some 2⟩)], ["Z:q"]⟩ "Z" "q" ttl 10).docs) := by
  have h := unstale_resets_stale_page ⟨[("Z:q:j1", ⟨0, .in_progress, some 2⟩)], ["Z:q"]⟩
    "Z" "q" 10 (by decide)
  exact ⟨by decide, h.1, h.2.1, h.2.2.1, h.2.2.2.1, h.2.2.2.2.1, h.2.2.2.2.2⟩

/-- C7: `remove(queue, "*")` unlinks every MI key under the queue's
pattern — afterwards no key under the pattern remains and the `created`
count of the queue is `0` — while the payload store is left untouched
(cleanup is deferred to the expiration watcher). -/
theorem remove_star_clears_queue (s : MIStore) (ps : PSStore) (gp queue : String)
    (hidx : s.indexes.contains (indexName gp queue) = true) :
    (∀ p ∈ (Job.removeStar s ps gp queue).1.docs,
      strHasPref (queueKeyPat gp queue) p.1 = false) ∧
    Job.count_files (Job.removeStar s ps gp queue).1 gp queue = .ok 0 ∧
    (Job.removeStar s ps gp queue).2 = ps := by
  refine ⟨?_, ?_, rfl⟩
  · intro p hp
    have := (List.mem_filter.mp hp).2
    simpa using this
  · rw [Job.count_files]
    have hidx' : (Job.removeStar s ps gp queue).1.indexes.contains (indexName gp queue) = true := hidx
    rw [if_pos hidx']
    have hnil : (Job.removeStarMI s gp queue).docs.filter (fun p =>
        strHasPref (queueKeyPat gp queue) p.1 && decide (p.2.status = Status.created)) = [] := by
      rw [List.filter_eq_nil_iff]
      intro p hp
      have h2 := (List.mem_filter.mp hp).2
      simp only [Bool.not_eq_true'] at h2
      simp [h2]
    simp only [Job.removeStar]
    rw [hnil]
    rfl

/-- Witness for C7 on a queue with one `created` and one `in_progress`
job. -/
theorem remove_star_clears_queue_witness :
    ((⟨[("Z:q:a", ⟨1, .created, none⟩), ("Z:q:b", ⟨2, .in_progress, some 3⟩)], ["Z:q"]⟩ :
        MIStore).indexes.contains (indexName "Z" "q") = true) ∧
    (∀ p ∈ (Job.removeStar
        ⟨[("Z:q:a", ⟨1, .created, none⟩), ("Z:q:b", ⟨2, .in_progress, some 3⟩)], ["Z:q"]⟩
        ⟨[("Z_q", [("a", ['x'])])]⟩ "Z" "q").1.docs,
      strHasPref (queueKeyPat "Z" "q") p.1 = false) ∧
    Job.count_files (Job.removeStar
        ⟨[("Z:q:a", ⟨1, .created, none⟩), ("Z:q:b", ⟨2, .in_progress, some 3⟩)], ["Z:q"]⟩
        ⟨[("Z_q", [("a", ['x'])])]⟩ "Z" "q").1 "Z" "q" = .ok 0 ∧
    (Job.removeStar
        ⟨[("Z:q:a", ⟨1, .created, none⟩), ("Z:q:b", ⟨2, .in_progress, some 3⟩)], ["Z:q"]⟩
        ⟨[("Z_q", [("a", ['x'])])]⟩ "Z" "q").2 = ⟨[("Z_q", [("a", ['x'])])]⟩ := by
  have h := remove_star_clears_queue
    ⟨[("Z:q:a", ⟨1, .created, none⟩), ("Z:q:b", ⟨2, .in_progress, some 3⟩)], ["Z:q"]⟩
    ⟨[("Z_q", [("a", ['x'])])]⟩ "Z" "q" (by decide)
  exact ⟨by decide, h.1, h.2.1, h.2.2⟩

theorem subscribe_append_none (ps : PSStore) (psUp : Bool) (gp queue : String)
    {pre : List (Option Msg)} (l : List (Option Msg)) (hpre : ∀ x ∈ pre, x = none) :
    subscribe ps psUp gp queue (pre ++ l) = subscribe ps psUp gp queue l := by
  induction pre with
  | nil => rfl
  | cons x t ih =>
    have hx : x = none := hpre x (List.mem_cons_self x t)
    subst hx
    rw [List.cons_append, subscribe]
    exact ih (fun y hy => hpre y (List.mem_cons_of_mem none hy))

/-- C8: `subscribe_one` polling semantics — after any run of empty poll
slices, the first `"message"`-typed message with a UUID-shaped data
string is treated as a reference whose payload is fetched from the topic
collection and returned as the raw 200 body; a non-UUID-shaped message's
bytes are returned as-is; and when the deadline elapses with no message
at all the handler answers an empty 200. -/
theorem subscribe_one_semantics (ps : PSStore) (gp queue : String)
    (pre rest : List (Option Msg)) (data p : Bytes)
    (hpre : ∀ x ∈ pre, x = none) :
    (subscribe ps true gp queue pre = none ∧
      subscribe_one_handler ps true gp queue pre = .empty 200) ∧
    (uuidShaped (bytesStr data) = true →
      psRetrieve ps (topicCollection gp queue) (bytesStr data) = some p →
      p ≠ [] →
      subscribe ps true gp queue (pre ++ some ⟨"message", data⟩ :: rest) = some p ∧
      subscribe_one_handler ps true gp queue (pre ++ some ⟨"message", data⟩ :: rest) =
        .raw p 200) ∧
    (uuidShaped (bytesStr data) = false → data ≠ [] →
      subscribe ps true gp queue (pre ++ some ⟨"message", data⟩ :: rest) = some data ∧
      subscribe_one_handler ps true gp queue (pre ++ some ⟨"message", data⟩ :: rest) =
        .raw data 200) := by
  have hnil : subscribe ps true gp queue pre = none := by
    have h0 := subscribe_append_none ps true gp queue [] hpre
    rw [List.append_nil] at h0
    rw [h0]
    rfl
  refine ⟨⟨hnil, ?_⟩, ?_, ?_⟩
  · rw [subscribe_one_handler, hnil]
  · intro huuid hfetch hne
    have hs : subscribe ps true gp queue (pre ++ some ⟨"message", data⟩ :: rest) = some p := by
      rw [subscribe_append_none ps true gp queue _ hpre, subscribe]
      simp [huuid, hfetch, hne]
    refine ⟨hs, ?_⟩
    rw [subscribe_one_handler, hs]
    simp [hne]
  · intro huuid hne
    have hs : subscribe ps true gp queue (pre ++ some ⟨"message", data⟩ :: rest) = some data := by
      rw [subscribe_append_none ps true gp queue _ hpre, subscribe]
      simp [huuid]
    refine ⟨hs, ?_⟩
    rw [subscribe_one_handler, hs]
    simp [hne]

/-- Witness for C8: two empty poll slices, then a UUID-shaped reference
to a stored topic payload. -/
theorem subscribe_one_semantics_witness :
    (∀ x ∈ ([none, none] : List (Option Msg)), x = none) ∧
    (subscribe ⟨[("Z_q_topics", [("123e4567-e89b-42d3-a456-426614174000", ['h', 'i'])])]⟩
        true "Z" "q" [none, none] = none ∧
      subscribe_one_handler
        ⟨[("Z_q_topics", [("123e4567-e89b-42d3-a456-426614174000", ['h', 'i'])])]⟩
        true "Z" "q" [none, none] = .empty 200) ∧
    (subscribe ⟨[("Z_q_topics", [("123e4567-e89b-42d3-a456-426614174000", ['h', 'i'])])]⟩
        true "Z" "q"
        ([none, none] ++
          some ⟨"message", "123e4567-e89b-42d3-a456-426614174000".data⟩ :: []) =
      some ['h', 'i'] ∧
      subscribe_one_handler
        ⟨[("Z_q_topics", [("123e4567-e89b-42d3-a456-426614174000", ['h', 'i'])])]⟩
        true "Z" "q"
        ([none, none] ++
          some ⟨"message", "123e4567-e89b-42d3-a456-426614174000".data⟩ :: []) =
      .raw ['h', 'i'] 200) := by
  have hpre : ∀ x ∈ ([none, none] : List (Option Msg)), x = none := by decide
  have h := subscribe_one_semantics
    ⟨[("Z_q_topics", [("123e4567-e89b-42d3-a456-426614174000", ['h', 'i'])])]⟩
    "Z" "q" [none, none] []
    "123e4567-e89b-42d3-a456-426614174000".data ['h', 'i'] hpre
  exact ⟨hpre, h.1, h.2.1 (by decide) (by decide) (by decide)⟩

/-- C10: when the atomic script claims a job but the payload store yields
nothing for it (absent payload, empty payload, or a failed fetch — all of
which leave `payload` falsy), the `POST /tasks` response is an empty 200
carrying no job id, the claimed document stays `in_progress`, no later
`take` script run can return its key again, and a `reset` of the job puts
it back to `created` with `grab_ts` removed. -/
theorem take_payload_miss_empty_response (s s' : MIStore) (ps : PSStore) (psUp : Bool)
    (gp queue jid : String) (now : Time) (k : Key)
    (hscript : takeScript s gp queue now = .ok (s', some k))
    (hkey : k = entryKey gp queue jid)
    (hmiss : (if psUp then psRetrieve ps (payloadCollection gp queue) (jobIdOfKey gp queue k)
        else none) = none ∨
      (if psUp then psRetrieve ps (payloadCollection gp queue) (jobIdOfKey gp queue k)
        else none) = some []) :
    take_handler s ps psUp gp queue now = (.empty 200, s') ∧
    (∀ p ∈ s'.docs, p.1 = k → p.2.status = .in_progress) ∧
    (∀ n2 s2 k2, takeScript s' gp queue n2 = .ok (s2, some k2) → k2 ≠ k) ∧
    (∀ p ∈ (Job.resetMI s' gp queue jid).docs, p.1 = k →
      p.2.status = .created ∧ p.2.grab_ts = none) := by
  refine ⟨?_, takeScript_claimed_in_progress hscript, ?_, ?_⟩
  · rcases hmiss with hmiss | hmiss
    · simp [take_handler, Job.take, hscript, hmiss]
    · simp [take_handler, Job.take, hscript, hmiss]
  · intro n2 s2 k2 h2 he
    have hmem2 := takeScript_ok_some h2
    obtain ⟨d2, _, hst2, hmem2, _, _⟩ := hmem2
    have hip := takeScript_claimed_in_progress hscript (k2, d2) hmem2 he
    rw [hst2] at hip
    exact Status.noConfusion hip
  · intro p hp hpk
    rcases List.mem_map.mp hp with ⟨q', hq', rfl⟩
    by_cases hqk : (q'.1 == entryKey gp queue jid) = true
    · rw [if_pos hqk]
      exact ⟨rfl, rfl⟩
    · rw [if_neg hqk] at hpk
      rw [hkey] at hpk
      exact absurd (by simp [hpk]) hqk

/-- Witness for C10: a claimed job whose payload was never stored. -/
theorem take_payload_miss_empty_response_witness :
    (takeScript ⟨[("Z:q:j1", ⟨0, .created, none⟩)], ["Z:q"]⟩ "Z" "q" 3 =
      .ok (⟨[("Z:q:j1", ⟨0, .in_progress, some 3⟩)], ["Z:q"]⟩, some "Z:q:j1")) ∧
    ("Z:q:j1" = entryKey "Z" "q" "j1") ∧
    (take_handler ⟨[("Z:q:j1", ⟨0, .created, none⟩)], ["Z:q"]⟩ ⟨[]⟩ true "Z" "q" 3 =
      (.empty 200, ⟨[("Z:q:j1", ⟨0, .in_progress, some 3⟩)], ["Z:q"]⟩)) ∧
    (∀ p ∈ (⟨[("Z:q:j1", ⟨0, .in_progress, some 3⟩)], ["Z:q"]⟩ : MIStore).docs,
      p.1 = "Z:q:j1" → p.2.status = .in_progress) ∧
    (∀ n2 s2 k2,
      takeScript ⟨[("Z:q:j1", ⟨0, .in_progress, some 3⟩)], ["Z:q"]⟩ "Z" "q" n2 =
        .ok (s2, some k2) → k2 ≠ "Z:q:j1") ∧
    (∀ p ∈ (Job.resetMI ⟨[("Z:q:j1", ⟨0, .in_progress, some 3⟩)], ["Z:q"]⟩ "Z" "q" "j1").docs,
      p.1 = "Z:q:j1" → p.2.status = .created ∧ p.2.grab_ts = none) := by
  have hscript : takeScript ⟨[("Z:q:j1", ⟨0, .created, none⟩)], ["Z:q"]⟩ "Z" "q" 3 =
      .ok (⟨[("Z:q:j1", ⟨0, .in_progress, some 3⟩)], ["Z:q"]⟩, some "Z:q:j1") := by decide
  have h := take_payload_miss_empty_response
    ⟨[("Z:q:j1", ⟨0, .created, none⟩)], ["Z:q"]⟩
    ⟨[("Z:q:j1", ⟨0, .in_progress, some 3⟩)], ["Z:q"]⟩
    ⟨[]⟩ true "Z" "q" "j1" 3 "Z:q:j1" hscript rfl (Or.inl (by decide))
  exact ⟨hscript, rfl, h.1, h.2.1, h.2.2.1, h.2.2.2⟩

/-- C3 (code observation): at a concrete `PUT /tasks` request without a
caller-supplied job id, `Job.add` stores the freshly minted id but
returns `True`, and the `add_job` handler answers the text body `"OK"` —
not the msgpack `{job_id}` body the specification (and the bundled
`TaskQ.add` client) expects. -/
theorem add_job_responds_text_ok :
    (add_job ⟨[], ["Zaku-task-queues:q1"]⟩ ⟨[]⟩ "Zaku-task-queues" "q1" none
      "123e4567-e89b-42d3-a456-426614174000" (some ['x']) 7).1 = .text "OK" 200 ∧
    (Job.add ⟨[], ["Zaku-task-queues:q1"]⟩ ⟨[]⟩ "Zaku-task-queues" "q1" none
      "123e4567-e89b-42d3-a456-426614174000" (some ['x']) 7).2.2 = true ∧
    (add_job ⟨[], ["Zaku-task-queues:q1"]⟩ ⟨[]⟩ "Zaku-task-queues" "q1" none
      "123e4567-e89b-42d3-a456-426614174000" (some ['x']) 7).1 ≠
      .packed (.jobIdMsg "123e4567-e89b-42d3-a456-426614174000") 200 := by
  refine ⟨rfl, rfl, ?_⟩
  intro h
  exact Response.noConfusion h

/-- C9 (code observation): the expiration watcher groups the expired MI
key `Zaku-task-queues:q1:job-a` by `rsplit(":", 1)` and issues its bulk
delete against the collection `Zaku-task-queues:q1`, while `Job.add`
stores that job's payload in the collection `Zaku-task-queues_q1` — the
two names differ, so the delete targets the wrong collection. -/
theorem gc_flush_uses_colon_collection :
    gcFlush ["Zaku-task-queues:q1:job-a"] = [("Zaku-task-queues:q1", ["job-a"])] ∧
    payloadCollection "Zaku-task-queues" "q1" = "Zaku-task-queues_q1" ∧
    "Zaku-task-queues:q1" ≠ "Zaku-task-queues_q1" := by
  refine ⟨by decide, rfl, by decide⟩

end Zaku
